import Mathlib

/-!
Verification of the gg-device-ops-component job execution engine.

Rust strings are modelled as `List Char` (one entry per Unicode scalar
value); Rust's byte length `str::len` is modelled by `utf8Len`.  Machine
integers are modelled as `Nat`/`Int` with explicit wrap-around where a cast
occurs in the source.  Fallible Rust functions returning `Result<T,
DeviceOpsError>` are modelled as `Except DeviceOpsError T`.
-/

namespace DeviceOps

/-- UTF-8 byte length of a string, i.e. Rust's `str::len()`. -/
def utf8Len : List Char → Nat
  | [] => 0
  | c :: cs => c.utf8Size + utf8Len cs

/-- Boolean substring containment, Rust's `str::contains(pat)`. -/
def isInfixOfB (pat : List Char) : List Char → Bool
  | [] => pat.isEmpty
  | c :: rest => pat.isPrefixOf (c :: rest) || isInfixOfB pat rest

/-- Split on a separator character, keeping empty pieces:
`"a//b".split('/') = ["a", "", "b"]`. -/
def splitOnCharAux (sep : Char) (cur : List Char) : List Char → List (List Char)
  | [] => [cur.reverse]
  | c :: cs =>
    if c = sep then cur.reverse :: splitOnCharAux sep [] cs
    else splitOnCharAux sep (c :: cur) cs

def splitOnChar (sep : Char) (s : List Char) : List (List Char) :=
  splitOnCharAux sep [] s

-- ============================================================================
-- Error type (src/error.rs)
-- ============================================================================

/-- `DeviceOpsError` from src/error.rs. -/
inductive DeviceOpsError where
  | IpcError (msg : List Char)
  | ExecutionError (msg : List Char)
  | SecurityError (msg : List Char)
  | ConfigError (msg : List Char)
  | TimeoutError (secs : Nat)
  | InvalidJobDocument (msg : List Char)
deriving DecidableEq, Repr

/-- `true` exactly on the `InvalidJobDocument` constructor. -/
def DeviceOpsError.isInvalidJobDocument : DeviceOpsError → Bool
  | .InvalidJobDocument _ => true
  | _ => false

/-- `true` exactly on the `SecurityError` constructor. -/
def DeviceOpsError.isSecurityError : DeviceOpsError → Bool
  | .SecurityError _ => true
  | _ => false

-- ============================================================================
-- Data model (src/models/models.rs)
-- ============================================================================

/-- `JobInput` from src/models/models.rs: command path, optional args,
optional timeout override (u64 seconds). -/
structure JobInput where
  command : List Char
  args : Option (List (List Char))
  timeout : Option Nat
deriving DecidableEq, Repr

/-- `JobAction` from src/models/models.rs.  `allow_std_err` is an `i32`
in the source (range `[-2^31, 2^31)`), modelled as `Int`. -/
structure JobAction where
  name : List Char
  action_type : List Char
  input : JobInput
  run_as_user : Option (List Char)
  ignore_step_failure : Option Bool
  allow_std_err : Option Int
deriving DecidableEq, Repr

structure JobStep where
  action : JobAction
deriving DecidableEq, Repr

/-- `JobDocument` from src/models/models.rs (the `Box` around the final
step is immaterial here). -/
structure JobDocument where
  version : List Char
  steps : List JobStep
  final_step : Option JobStep
  include_std_out : Option Bool
deriving DecidableEq, Repr

/-- `ExecutionOutput` from src/models/models.rs.  `exit_code` is an `i32`,
`execution_time_ms` a `u64`, `stderr_line_count` a `usize`. -/
structure ExecutionOutput where
  stdout : List Char
  stderr : List Char
  exit_code : Int
  execution_time_ms : Nat
  stderr_line_count : Nat
  stdout_truncated : Bool
  stderr_truncated : Bool
deriving DecidableEq, Repr

/-- `Command` from src/models/models.rs. -/
structure Command where
  script_path : List Char
  args : List (List Char)
  run_as_user : Option (List Char)
deriving DecidableEq, Repr

/-- `StepOutput` from src/models/models.rs. -/
structure StepOutput where
  step_name : List Char
  output : ExecutionOutput
  ignored_failure : Bool
deriving DecidableEq, Repr

/-- `JobExecutionResult` from src/models/models.rs. -/
structure JobExecutionResult where
  outputs : List StepOutput
  overall_success : Bool
  failed_step : Option (List Char)
deriving DecidableEq, Repr

/-- `ExecutionConfig` from src/config.rs. -/
structure ExecutionConfig where
  default_timeout : Nat
deriving DecidableEq, Repr

-- ============================================================================
-- Job document validation (src/security/validation.rs, lines 10-67)
-- ============================================================================

/-- Rust's `char::is_whitespace`: the Unicode `White_Space` property
(U+0009..U+000D, U+0020, U+0085, U+00A0, U+1680, U+2000..U+200A, U+2028,
U+2029, U+202F, U+205F, U+3000). -/
def rustIsWhitespace (c : Char) : Bool :=
  (0x09 ≤ c.toNat && c.toNat ≤ 0x0D) || c.toNat == 0x20 || c.toNat == 0x85 ||
  c.toNat == 0xA0 || c.toNat == 0x1680 ||
  (0x2000 ≤ c.toNat && c.toNat ≤ 0x200A) ||
  c.toNat == 0x2028 || c.toNat == 0x2029 || c.toNat == 0x202F ||
  c.toNat == 0x205F || c.toNat == 0x3000

/-- The per-step checks of `validate_job_document` (validation.rs lines
33-64): action type, command byte length, non-blank command, timeout
bounds, in source order with the source's error messages. -/
def validate_step (step : JobStep) : Except DeviceOpsError Unit :=
  if step.action.action_type ≠ "runCommand".data then
    .error (.InvalidJobDocument
      ("Unsupported action type: ".data ++ step.action.action_type ++
        ". Only 'runCommand' is supported".data))
  else if utf8Len step.action.input.command > 4096 then
    .error (.InvalidJobDocument "Command too long (max 4096 characters)".data)
  else if step.action.input.command.all rustIsWhitespace then
    -- Rust: `command.trim().is_empty()`, which holds iff every char has the
    -- Unicode White_Space property that `str::trim` strips
    .error (.InvalidJobDocument "Command cannot be empty".data)
  else
    match step.action.input.timeout with
    | some t =>
      if t = 0 ∨ t > 86400 then
        .error (.InvalidJobDocument
          "Timeout must be between 1 and 86400 seconds (24 hours)".data)
      else .ok ()
    | none => .ok ()

/-- The `for step in all_steps` loop of `validate_job_document`: first
failing step's error, else ok. -/
def validate_steps : List JobStep → Except DeviceOpsError Unit
  | [] => .ok ()
  | s :: rest =>
    match validate_step s with
    | .ok _ => validate_steps rest
    | .error e => .error e

/-- `validate_job_document` from src/security/validation.rs lines 10-67. -/
def validate_job_document (document : JobDocument) : Except DeviceOpsError Unit :=
  if document.version ≠ "1.0".data then
    .error (.InvalidJobDocument
      ("Unsupported job document version: ".data ++ document.version))
  else if document.steps.isEmpty then
    .error (.InvalidJobDocument "Job document has no steps".data)
  else
    validate_steps (document.steps ++ document.final_step.toList)

-- ============================================================================
-- Security validation (src/security/validation.rs, lines 73-146)
-- ============================================================================

/-- `SecurityValidator` from src/security/validation.rs. -/
structure SecurityValidator where
  command_allowlist : List (List Char)
  path_allowlist : List (List Char)
deriving DecidableEq, Repr

/-- `has_path_traversal` (validation.rs lines 127-145): substring `..` or
`~`, case-insensitive `%2e%2e` / `%2f` / `%5c`, or a non-absolute path.
The source's three early `return true`s amount to this disjunction.  Rust
lowercases with `str::to_lowercase`; character-wise `Char.toLower` agrees
on the ASCII patterns involved. -/
def has_path_traversal (path : List Char) : Bool :=
  let lower := path.map Char.toLower
  isInfixOfB "..".data path || isInfixOfB "~".data path ||
  (isInfixOfB "%2e%2e".data lower || isInfixOfB "%2f".data lower ||
    isInfixOfB "%5c".data lower) ||
  decide (path.head? ≠ some '/')

/-- `is_command_allowed` (validation.rs lines 114-118): exact match against
the command allowlist. -/
def is_command_allowed (v : SecurityValidator) (script_path : List Char) : Bool :=
  v.command_allowlist.any (fun allowed => script_path = allowed)

/-- Components of a path in the sense of `std::path::Path::components`:
repeated separators and interior `.` are dropped; a root component `/`
marks an absolute path; a leading `.` of a relative path is kept. -/
def pathComponents (s : List Char) : List (List Char) :=
  let parts := (splitOnChar '/' s).filter (fun c => ¬(c = [] ∨ c = ['.']))
  if s.head? = some '/' then ['/'] :: parts
  else if s = ['.'] ∨ s.take 2 = ['.', '/'] then ['.'] :: parts
  else parts

/-- `Path::starts_with`: component-wise prefix. -/
def pathStartsWith (p base : List Char) : Bool :=
  (pathComponents base).isPrefixOf (pathComponents p)

/-- `is_path_allowed` (validation.rs lines 120-125): `Path::starts_with`
against some path-allowlist entry. -/
def is_path_allowed (v : SecurityValidator) (script_path : List Char) : Bool :=
  v.path_allowlist.any (fun allowed_path => pathStartsWith script_path allowed_path)

/-- `SecurityValidator::validate` (validation.rs lines 86-112). -/
def SecurityValidator.validate (v : SecurityValidator) (command : Command) :
    Except DeviceOpsError Unit :=
  if has_path_traversal command.script_path then
    .error (.SecurityError ("Path traversal detected: ".data ++ command.script_path))
  else if ¬v.command_allowlist.isEmpty ∧ ¬is_command_allowed v command.script_path then
    .error (.SecurityError ("Command not in allowlist: ".data ++ command.script_path))
  else if ¬v.path_allowlist.isEmpty ∧ ¬is_path_allowed v command.script_path then
    .error (.SecurityError ("Path not in allowlist: ".data ++ command.script_path))
  else
    .ok ()

-- ============================================================================
-- Step success evaluation (src/executor/command.rs, lines 391-415)
-- ============================================================================

/-- Rust's `i32 as usize` cast on a 64-bit target: sign-extension, i.e.
reduction modulo `2^64` (the argument is always in the `i32` range). -/
def i32_as_usize (n : Int) : Nat := (n % (2 : Int) ^ 64).toNat

/-- `CommandExecutor::evaluate_step_success` (command.rs lines 391-415):
exit code must be 0 and the stderr line count must not exceed
`allowStdErr` (default 0) cast `as usize`. -/
def evaluate_step_success (output : ExecutionOutput) (action : JobAction) : Bool :=
  if output.exit_code ≠ 0 then false
  else
    let allowed_stderr := action.allow_std_err.getD 0
    if output.stderr_line_count > i32_as_usize allowed_stderr then false
    else true

/-- The success criterion as the specification words it: exit code 0 and
stderr line count at most the `allowStdErr` value (default 0), read as a
plain integer comparison.  Used to compare the spec's claim with
`evaluate_step_success`. -/
def evaluate_step_success_spec (output : ExecutionOutput) (action : JobAction) : Bool :=
  output.exit_code = 0 ∧
    (output.stderr_line_count : Int) ≤ action.allow_std_err.getD 0

-- ============================================================================
-- Step sequencing (src/executor/command.rs, lines 160-277)
-- ============================================================================

/-- The behaviour of `CommandExecutor::execute_step` for one action: the
runner/security/timeout pipeline either produces an `ExecutionOutput` or an
error.  `execute_step` (command.rs lines 280-316) reads only the action's
`input` and `run_as_user` fields, never its `ignore_step_failure` flag, so
an environment is a function of those two fields. -/
def ExecEnv : Type :=
  JobInput → Option (List Char) → Except DeviceOpsError ExecutionOutput

/-- Run one step through the environment, as `self.execute_step(&step.action)`. -/
def runStep (env : ExecEnv) (action : JobAction) :
    Except DeviceOpsError ExecutionOutput :=
  env action.input action.run_as_user

/-- The `for (idx, step) in job_document.steps.iter().enumerate()` loop of
`CommandExecutor::execute` (command.rs lines 166-230), returning the
accumulated `(outputs, overall_success, failed_step)`.  A failed step with
`ignore_step_failure` unset records its output and breaks; an execution
error with the flag unset breaks without recording an output; with the
flag set, a failed step records `ignored_failure = true` and an execution
error records nothing, and the loop continues. -/
def executeSteps (env : ExecEnv) :
    List JobStep → List StepOutput × Bool × Option (List Char)
  | [] => ([], true, none)
  | step :: rest =>
    match runStep env step.action with
    | .ok output =>
      let step_failed := !evaluate_step_success output step.action
      let ignore_failure := step.action.ignore_step_failure.getD false
      if step_failed && !ignore_failure then
        ([⟨step.action.name, output, false⟩], false, some step.action.name)
      else
        let r := executeSteps env rest
        (⟨step.action.name, output, step_failed && ignore_failure⟩ :: r.1, r.2.1, r.2.2)
    | .error _ =>
      let ignore_failure := step.action.ignore_step_failure.getD false
      if !ignore_failure then
        ([], false, some step.action.name)
      else
        executeSteps env rest

/-- `CommandExecutor::execute` (command.rs lines 160-277): the step loop,
then the final step when every regular step passed; a final-step failure
or error is recorded unconditionally as the overall failure. -/
def execute (env : ExecEnv) (job_document : JobDocument) : JobExecutionResult :=
  let r := executeSteps env job_document.steps
  let outputs := r.1
  let overall_success := r.2.1
  let failed_step := r.2.2
  if overall_success then
    match job_document.final_step with
    | some final_step =>
      match runStep env final_step.action with
      | .ok output =>
        let step_failed := !evaluate_step_success output final_step.action
        { outputs := outputs ++ [⟨final_step.action.name, output, false⟩],
          overall_success := !step_failed,
          failed_step := if step_failed then some final_step.action.name else none }
      | .error _ =>
        { outputs := outputs,
          overall_success := false,
          failed_step := some final_step.action.name }
    | none => { outputs := outputs, overall_success := true, failed_step := none }
  else
    { outputs := outputs, overall_success := false, failed_step := failed_step }

/-- A step "passes" the loop: the runner produced an output that evaluated
successfully, or the step's failure (evaluated or runner error) was
ignored.  Exactly the condition under which `executeSteps` continues past
the step. -/
def stepPassesB (env : ExecEnv) (step : JobStep) : Bool :=
  match runStep env step.action with
  | .ok output =>
    evaluate_step_success output step.action ||
      step.action.ignore_step_failure.getD false
  | .error _ => step.action.ignore_step_failure.getD false

/-- Whether the runner produced an output for the step (i.e. whether the
loop records a `StepOutput` for it, when reached). -/
def stepHasOutputB (env : ExecEnv) (step : JobStep) : Bool :=
  (runStep env step.action).toBool

/-- Replace a step's `ignore_step_failure` flag. -/
def setIgnoreFlag (step : JobStep) (b : Option Bool) : JobStep :=
  { step with action := { step.action with ignore_step_failure := b } }

-- ============================================================================
-- Per-step timeout (src/executor/command.rs, lines 288-303 and 46-55)
-- ============================================================================

/-- The timeout chosen in `execute_step` (command.rs lines 289-290): the
step's `timeout` override when present, else the configured default. -/
def step_timeout_secs (config : ExecutionConfig) (action : JobAction) : Nat :=
  action.input.timeout.getD config.default_timeout

/-- Outcome of the `tokio::time::timeout(..., runner.run(...))` boundary in
`execute_step` (command.rs lines 294-303): the surfaced result, and whether
the engine terminated the spawned OS process when the timeout fired. -/
structure TimeoutOutcome where
  result : Except DeviceOpsError ExecutionOutput
  processTerminatedOnTimeout : Bool
deriving Repr

/-- The timeout boundary of `execute_step`, together with the process
lifecycle of the child spawned by `SystemCommandRunner::run` (command.rs
lines 46-55): `runSecs` is how long the spawned process takes and
`runResult` what `run` would return.  When the process outlives
`timeoutSecs`, `tokio::time::timeout` elapses and `execute_step` returns
`TimeoutError`; the dropped future held the `tokio::process::Child`, and
since `run` neither sets `kill_on_drop(true)` on the spawned command nor
issues any kill, tokio's documented drop behaviour leaves the OS process
running — hence `processTerminatedOnTimeout := false` in that branch. -/
def run_with_timeout (timeoutSecs runSecs : Nat)
    (runResult : Except DeviceOpsError ExecutionOutput) : TimeoutOutcome :=
  if runSecs > timeoutSecs then
    { result := .error (.TimeoutError timeoutSecs), processTerminatedOnTimeout := false }
  else
    { result := runResult, processTerminatedOnTimeout := false }

-- ============================================================================
-- Output capping (src/executor/command.rs, lines 11-12 and 84-126)
-- ============================================================================

def MAX_OUTPUT_LINES : Nat := 1000
def MAX_OUTPUT_BYTES : Nat := 32 * 1024

/-- Strip one trailing carriage return, as Rust's `str::lines` does per line. -/
def stripCR (l : List Char) : List Char :=
  if l.getLast? = some '\r' then l.dropLast else l

/-- Rust's `str::lines()`: split on `'\n'`, drop a final empty piece
(produced by a trailing newline, or by the empty string), strip one
trailing `'\r'` from each line. -/
def rustLines (s : List Char) : List (List Char) :=
  let parts := splitOnChar '\n' s
  let parts := if parts.getLast? = some [] then parts.dropLast else parts
  parts.map stripCR

/-- The `for (idx, line) in lines.iter().take(lines_to_take).enumerate()`
loop of `limit_output` (command.rs lines 101-112): join lines with `'\n'`,
breaking with `truncated = true` once the accumulated byte length exceeds
`MAX_OUTPUT_BYTES - 100`. -/
def limitLoop : List (List Char) → Nat → List Char → Bool → List Char × Bool
  | [], _, acc, truncated => (acc, truncated)
  | l :: ls, idx, acc, truncated =>
    let acc := if idx > 0 then acc ++ '\n' :: l else acc ++ l
    if utf8Len acc > MAX_OUTPUT_BYTES - 100 then (acc, true)
    else limitLoop ls (idx + 1) acc truncated

/-- Marker appended when the line or byte bound was hit (command.rs line 115). -/
def truncMarker : List Char := "\n[Output truncated: exceeded limit]".data

/-- Marker appended by the final size truncation (command.rs line 121). -/
def sizeMarker : List Char := "\n[Output truncated: size limit]".data

/-- The lines `limit_output` feeds to its loop: at most the first
`MAX_OUTPUT_LINES` input lines (command.rs lines 94-99). -/
def limitedLines (s : List Char) : List (List Char) :=
  let lines := rustLines s
  let lines_to_take :=
    if lines.length > MAX_OUTPUT_LINES then MAX_OUTPUT_LINES else lines.length
  lines.take lines_to_take

/-- Rust's `String::truncate new_len`: `some` of the byte-prefix when
`new_len` lies on a char boundary (the whole string when `new_len` is not
below its length), and `none` — modelling the panic `String::truncate`
raises — when `new_len` falls inside a multibyte character. -/
def rustTruncate : List Char → Nat → Option (List Char)
  | _, 0 => some []
  | [], _ + 1 => some []
  | c :: cs, n + 1 =>
    if c.utf8Size ≤ n + 1 then
      (rustTruncate cs (n + 1 - c.utf8Size)).map (fun t => c :: t)
    else none

/-- `SystemCommandRunner::limit_output` (command.rs lines 86-125), with the
`String::from_utf8_lossy` front end elided (the input is taken as text):
line cap, byte-budget loop, truncation marker, final size truncation.
`none` models the panic of `result.truncate(MAX_OUTPUT_BYTES - 50)`
(command.rs line 120) when that byte offset is not a char boundary. -/
def limit_output (s : List Char) : Option (List Char × Bool) :=
  let lines := rustLines s
  let truncated₀ := decide (lines.length > MAX_OUTPUT_LINES)
  let r := limitLoop (limitedLines s) 0 [] truncated₀
  let result := if r.2 then r.1 ++ truncMarker else r.1
  if utf8Len result > MAX_OUTPUT_BYTES then
    (rustTruncate result (MAX_OUTPUT_BYTES - 50)).map
      (fun t => (t ++ sizeMarker, r.2))
  else
    some (result, r.2)

-- ============================================================================
-- Dedup ledger (src/ipc/jobs.rs, lines 33-52 and 121-127)
-- ============================================================================

/-- `JobHandler::mark_job_processed` (jobs.rs lines 35-52) acting on the
`processed_jobs` `VecDeque` (head = oldest): returns whether the id is new
and the updated ledger.  A known id leaves the ledger unchanged; a new id
is pushed at the back, and when the ledger then exceeds 100 entries the
oldest is popped from the front. -/
def mark_job_processed (ledger : List (List Char)) (job_id : List Char) :
    Bool × List (List Char) :=
  if job_id ∈ ledger then (false, ledger)
  else
    let l := ledger ++ [job_id]
    let l := if l.length > 100 then l.tail else l
    (true, l)

/-- The status-report behaviour of `JobHandler::handle_job` (jobs.rs lines
121-181) as a function of the dedup decision: a duplicate id returns
before any reporting; a new id publishes exactly one status update — the
validation-failure path, the execution-result path and the
infrastructure-error path each call `update_job_status` once.  The same
shape covers the parse-error path (jobs.rs lines 77-85).  Returns the
number of status updates published and the updated ledger. -/
def handle_job_reports (ledger : List (List Char)) (job_id : List Char) :
    Nat × List (List Char) :=
  let r := mark_job_processed ledger job_id
  (if r.1 then 1 else 0, r.2)

-- ============================================================================
-- Status formatting (src/models/models.rs, lines 150-260)
-- ============================================================================

/-- The fragment of a `serde_json::Value` needed for status details. -/
inductive Json where
  | str (s : List Char)
  | num (n : Int)
  | jbool (b : Bool)
deriving DecidableEq, Repr

def Json.isStr : Json → Bool
  | .str _ => true
  | _ => false

/-- JSON string escaping as `serde_json::to_string` performs it. -/
def escapeChar (c : Char) : List Char :=
  if c = '"' then ['\\', '"']
  else if c = '\\' then ['\\', '\\']
  else if c = '\n' then ['\\', 'n']
  else if c = '\r' then ['\\', 'r']
  else if c = '\t' then ['\\', 't']
  else if c.toNat = 8 then ['\\', 'b']
  else if c.toNat = 12 then ['\\', 'f']
  else if c.toNat < 32 then
    ['\\', 'u', '0', '0', Nat.digitChar (c.toNat / 16), Nat.digitChar (c.toNat % 16)]
  else [c]

def escapeString : List Char → List Char
  | [] => []
  | c :: cs => escapeChar c ++ escapeString cs

def encodeJsonString (s : List Char) : List Char :=
  '"' :: escapeString s ++ ['"']

def encodeJsonValue : Json → List Char
  | .str s => encodeJsonString s
  | .num n => (toString n).data
  | .jbool b => if b then "true".data else "false".data

def intercalateComma : List (List Char) → List Char
  | [] => []
  | [x] => x
  | x :: y :: rest => x ++ ',' :: intercalateComma (y :: rest)

/-- Compact serialization of a JSON object, fields assumed already in
serde_json's (BTreeMap) sorted key order. -/
def encodeJsonObject (fields : List (List Char × Json)) : List Char :=
  '\x7b' :: intercalateComma
      (fields.map (fun kv => encodeJsonString kv.1 ++ ':' :: encodeJsonValue kv.2))
    ++ ['\x7d']

/-- The per-step summary object built in `format_status_details`
(models.rs lines 179-213): name, exit code, elapsed time, conditional
stdout/stderr, conditional ignored-failure marker.  The source inserts
into a `serde_json::Map` (a `BTreeMap`), so the fields are recorded here
in its sorted key order, which is what `serde_json::to_string` emits. -/
def stepSummaryFields (include_stdout : Bool) (step : StepOutput) :
    List (List Char × Json) :=
  [("exit_code".data, Json.num step.output.exit_code)]
  ++ (if step.ignored_failure then [("ignored_failure".data, Json.jbool true)] else [])
  ++ [("name".data, Json.str step.step_name)]
  ++ (if step.output.stderr ≠ [] then [("stderr".data, Json.str step.output.stderr)] else [])
  ++ (if include_stdout ∧ step.output.stdout ≠ [] then
        [("stdout".data, Json.str step.output.stdout)] else [])
  ++ [("time_ms".data, Json.num step.output.execution_time_ms)]

/-- `serde_json::to_string(&step_summaries)` (models.rs line 218). -/
def encodeSummaryArray (include_stdout : Bool) (outputs : List StepOutput) :
    List Char :=
  '[' :: intercalateComma
      (outputs.map (fun st => encodeJsonObject (stepSummaryFields include_stdout st)))
    ++ [']']

/-- `format_status_details` (models.rs lines 150-260), as the list of
entries of the produced `statusDetails` object (entry order is insertion
order; the source's `serde_json::Map` reorders keys on serialization but
holds exactly these entries, whose keys are pairwise distinct). -/
def format_status_details (result : JobExecutionResult) (include_stdout : Bool) :
    List (List Char × Json) :=
  [("steps_executed".data, Json.str (toString result.outputs.length).data),
   ("overall_success".data,
     Json.str (if result.overall_success then "true".data else "false".data))]
  ++ (match result.failed_step with
      | some failed_step => [("failed_step".data, Json.str failed_step)]
      | none => [])
  ++ (if result.outputs.length > 1 then
        [("steps".data, Json.str (encodeSummaryArray include_stdout result.outputs))]
      else
        match result.outputs.head? with
        | some step_output =>
          [("step_name".data, Json.str step_output.step_name),
           ("exit_code".data, Json.str (toString step_output.output.exit_code).data),
           ("execution_time_ms".data,
             Json.str (toString step_output.output.execution_time_ms).data)]
          ++ (if include_stdout ∧ step_output.output.stdout ≠ [] then
                [("stdout".data, Json.str step_output.output.stdout)] else [])
          ++ (if step_output.output.stderr ≠ [] then
                [("stderr".data, Json.str step_output.output.stderr)] else [])
          ++ (if step_output.ignored_failure then
                [("ignored_failure".data, Json.str "true".data)] else [])
        | none => [])

-- ============================================================================
-- Supporting lemmas: document validation
-- ============================================================================

instance {ε α : Type} [DecidableEq ε] [DecidableEq α] : DecidableEq (Except ε α) :=
  fun a b =>
    match a, b with
    | .ok x, .ok y => if h : x = y then .isTrue (by simp [h]) else .isFalse (by simp [h])
    | .error x, .error y =>
      if h : x = y then .isTrue (by simp [h]) else .isFalse (by simp [h])
    | .ok _, .error _ => .isFalse (by simp)
    | .error _, .ok _ => .isFalse (by simp)

lemma validate_step_ok_iff (s : JobStep) :
    validate_step s = .ok () ↔
      (s.action.action_type = "runCommand".data ∧
       utf8Len s.action.input.command ≤ 4096 ∧
       ¬s.action.input.command.all rustIsWhitespace = true ∧
       ∀ t ∈ s.action.input.timeout, 1 ≤ t ∧ t ≤ 86400) := by
  unfold validate_step
  rcases ht : s.action.input.timeout with _ | t
  all_goals split_ifs with h1 h2 h3
  all_goals simp_all
  all_goals omega

lemma validate_step_err_kind (s : JobStep) (e : DeviceOpsError)
    (h : validate_step s = .error e) : e.isInvalidJobDocument = true := by
  unfold validate_step at h
  rcases ht : s.action.input.timeout with _ | t <;>
    simp only [ht] at h <;> split_ifs at h <;> cases h <;> rfl

lemma validate_steps_ok_iff (l : List JobStep) :
    validate_steps l = .ok () ↔ ∀ s ∈ l, validate_step s = .ok () := by
  induction l with
  | nil => simp [validate_steps]
  | cons s rest ih =>
    unfold validate_steps
    rcases hs : validate_step s with e | u
    · simp [hs]
    · cases u; simp [hs, ih]

lemma validate_steps_err_kind (l : List JobStep) (e : DeviceOpsError)
    (h : validate_steps l = .error e) : e.isInvalidJobDocument = true := by
  induction l with
  | nil => simp [validate_steps] at h
  | cons s rest ih =>
    unfold validate_steps at h
    rcases hs : validate_step s with e' | u <;> rw [hs] at h
    · cases h; exact validate_step_err_kind s _ hs
    · exact ih h

/-- C5: `validate_job_document` accepts exactly the documents with version
"1.0", a non-empty step list, and every step (final step included) having
action type "runCommand", a command of at most 4096 bytes that is not
blank, and any present timeout within [1, 86400]; every rejection is an
`InvalidJobDocument` error and never any other error kind. -/
theorem C5_validate_job_document_iff (doc : JobDocument) :
    (validate_job_document doc = .ok () ↔
      (doc.version = "1.0".data ∧ doc.steps ≠ [] ∧
       ∀ s ∈ doc.steps ++ doc.final_step.toList,
         s.action.action_type = "runCommand".data ∧
         utf8Len s.action.input.command ≤ 4096 ∧
         ¬s.action.input.command.all rustIsWhitespace = true ∧
         ∀ t ∈ s.action.input.timeout, 1 ≤ t ∧ t ≤ 86400)) ∧
    (∀ e, validate_job_document doc = .error e → e.isInvalidJobDocument = true) := by
  constructor
  · unfold validate_job_document
    split_ifs with h1 h2
    · exact iff_of_false (by simp) (fun hr => h1 (by simpa using hr.1))
    · exact iff_of_false (by simp) (fun hr => hr.2.1 (List.isEmpty_iff.mp h2))
    · rw [validate_steps_ok_iff]
      simp only [List.mem_append, eq_self_iff_true]
      constructor
      · intro h
        refine ⟨by simpa using h1, by simpa [List.isEmpty_iff] using h2, ?_⟩
        intro s hs
        exact (validate_step_ok_iff s).mp (h s (by simpa using hs))
      · rintro ⟨-, -, h⟩ s hs
        exact (validate_step_ok_iff s).mpr (h s (by simpa using hs))
  · intro e he
    unfold validate_job_document at he
    split_ifs at he
    · cases he; rfl
    · cases he; rfl
    · exact validate_steps_err_kind _ _ he

/-- Concrete documents exercising both directions of C5. -/
def wGoodDoc : JobDocument :=
  ⟨"1.0".data,
   [⟨⟨"Test".data, "runCommand".data, ⟨"/opt/test.sh".data, none, some 60⟩,
      none, none, none⟩⟩],
   none, none⟩

def wBadDoc : JobDocument := { wGoodDoc with version := "2.0".data }

/-- Witness for C5 at concrete inputs: `wGoodDoc` is accepted and the
rejection of `wBadDoc` is an `InvalidJobDocument` error. -/
theorem C5_validate_job_document_iff_witness :
    validate_job_document wGoodDoc = .ok () ∧
    (DeviceOpsError.InvalidJobDocument
      ("Unsupported job document version: ".data ++ "2.0".data)).isInvalidJobDocument
      = true :=
  ⟨(C5_validate_job_document_iff wGoodDoc).1.mpr (by decide),
   (C5_validate_job_document_iff wBadDoc).2 _ (by decide)⟩

-- ============================================================================
-- C4: SecurityValidator::validate
-- ============================================================================

/-- C4: `SecurityValidator::validate` accepts a command iff its path passes
every traversal check (no `..` or `~` substring, no case-insensitive
`%2e%2e` / `%2f` / `%5c`, starts with `/`) and each non-empty allowlist
admits it (exact membership for the command allowlist, `Path::starts_with`
descent for the path allowlist); an empty allowlist imposes no
restriction, and every rejection is a `SecurityError`. -/
theorem C4_security_validate_iff (v : SecurityValidator) (c : Command) :
    ((v.validate c).isOk = true ↔
      (¬(isInfixOfB "..".data c.script_path = true ∨
         isInfixOfB "~".data c.script_path = true ∨
         isInfixOfB "%2e%2e".data (c.script_path.map Char.toLower) = true ∨
         isInfixOfB "%2f".data (c.script_path.map Char.toLower) = true ∨
         isInfixOfB "%5c".data (c.script_path.map Char.toLower) = true ∨
         c.script_path.head? ≠ some '/') ∧
       (v.command_allowlist = [] ∨ c.script_path ∈ v.command_allowlist) ∧
       (v.path_allowlist = [] ∨
         ∃ entry ∈ v.path_allowlist, pathStartsWith c.script_path entry = true))) ∧
    (∀ e, v.validate c = .error e → e.isSecurityError = true) := by
  have htrav : ∀ p : List Char, has_path_traversal p = true ↔
      (isInfixOfB "..".data p = true ∨ isInfixOfB "~".data p = true ∨
       isInfixOfB "%2e%2e".data (p.map Char.toLower) = true ∨
       isInfixOfB "%2f".data (p.map Char.toLower) = true ∨
       isInfixOfB "%5c".data (p.map Char.toLower) = true ∨
       p.head? ≠ some '/') := by
    intro p
    simp only [has_path_traversal, Bool.or_eq_true, decide_eq_true_eq]
    tauto
  constructor
  · unfold SecurityValidator.validate
    split_ifs with h1 h2 h3
    · exact iff_of_false (by simp [Except.isOk, Except.toBool]) (fun hr => hr.1 ((htrav _).mp h1))
    · refine iff_of_false (by simp [Except.isOk, Except.toBool]) (fun hr => ?_)
      rcases hr.2.1 with hempty | hmem
      · exact h2.1 (by simp [hempty])
      · exact h2.2 (by simpa [is_command_allowed, List.any_eq_true] using hmem)
    · refine iff_of_false (by simp [Except.isOk, Except.toBool]) (fun hr => ?_)
      rcases hr.2.2 with hempty | ⟨entry, hentry, hsw⟩
      · exact h3.1 (by simp [hempty])
      · exact h3.2 (by simpa [is_path_allowed, List.any_eq_true] using ⟨entry, hentry, hsw⟩)
    · refine iff_of_true rfl ⟨fun hcontra => h1 ((htrav _).mpr hcontra), ?_, ?_⟩
      · by_cases hempty : v.command_allowlist = []
        · exact Or.inl hempty
        · refine Or.inr ?_
          have := not_and.mp h2 (by simpa [List.isEmpty_iff] using hempty)
          have hall : is_command_allowed v c.script_path = true := by
            by_contra hc
            exact this (by simpa using hc)
          simpa [is_command_allowed, List.any_eq_true] using hall
      · by_cases hempty : v.path_allowlist = []
        · exact Or.inl hempty
        · refine Or.inr ?_
          have := not_and.mp h3 (by simpa [List.isEmpty_iff] using hempty)
          have hall : is_path_allowed v c.script_path = true := by
            by_contra hc
            exact this (by simpa using hc)
          simpa [is_path_allowed, List.any_eq_true] using hall
  · intro e he
    unfold SecurityValidator.validate at he
    split_ifs at he <;> cases he <;> rfl

/-- Witness for C4 at concrete inputs: with a configured validator, an
allowed absolute path is accepted, and a traversal path is rejected with a
`SecurityError`. -/
theorem C4_security_validate_iff_witness :
    ((SecurityValidator.validate ⟨["/opt/scripts/run.sh".data], ["/opt/scripts".data]⟩
        ⟨"/opt/scripts/run.sh".data, [], none⟩).isOk = true) ∧
    (DeviceOpsError.SecurityError
        ("Path traversal detected: ".data ++ "../etc/passwd".data)).isSecurityError
      = true :=
  ⟨(C4_security_validate_iff ⟨["/opt/scripts/run.sh".data], ["/opt/scripts".data]⟩
      ⟨"/opt/scripts/run.sh".data, [], none⟩).1.mpr (by decide),
   (C4_security_validate_iff ⟨["/opt/scripts/run.sh".data], ["/opt/scripts".data]⟩
      ⟨"../etc/passwd".data, [], none⟩).2 _ (by decide)⟩

-- ============================================================================
-- C3 / C10: evaluate_step_success and the i32 → usize cast
-- ============================================================================

/-- A step action with a negative `allowStdErr`, and an output with exit
code 0 and five stderr lines. -/
def negAllowAction : JobAction :=
  ⟨"Step".data, "runCommand".data, ⟨"/bin/x".data, none, none⟩, none, none, some (-1)⟩

def fiveStderrOutput : ExecutionOutput := ⟨[], [], 0, 0, 5, false, false⟩

/-- Counterexample to C3 as stated: with `allowStdErr = -1`, exit code 0
and five stderr lines, the stderr line count exceeds the (negative)
`allowStdErr` threshold, yet `evaluate_step_success` returns `true` — the
`as usize` cast wraps the negative threshold to a huge allowance. -/
theorem C3_evaluate_step_success_counterexample :
    evaluate_step_success fiveStderrOutput negAllowAction = true ∧
    evaluate_step_success_spec fiveStderrOutput negAllowAction = false := by
  constructor <;> decide

/-- C3 amended: `evaluate_step_success` returns `true` iff the exit code
is 0 and either the stderr line count is at most the `allowStdErr`
threshold (absent defaults to 0) or that threshold is negative (the `as
usize` cast then wraps it to a huge allowance, disabling the stderr
check).  The hypotheses record the machine ranges: `allowStdErr` is an
`i32` and the stderr line count, produced from output capped at 32 KiB,
stays far below `2^64 - 2^31`. -/
theorem C3_evaluate_step_success_amended (out : ExecutionOutput) (action : JobAction)
    (h1 : -(2 ^ 31) ≤ action.allow_std_err.getD 0)
    (h2 : action.allow_std_err.getD 0 < 2 ^ 31)
    (h3 : out.stderr_line_count < 2 ^ 64 - 2 ^ 31) :
    (evaluate_step_success out action = true ↔
      (out.exit_code = 0 ∧
        (action.allow_std_err.getD 0 < 0 ∨
          (out.stderr_line_count : Int) ≤ action.allow_std_err.getD 0))) := by
  unfold evaluate_step_success i32_as_usize
  by_cases hexit : out.exit_code = 0
  · simp only [hexit, ne_eq, not_true_eq_false, if_false, ite_not, true_and]
    split_ifs with hcount
    · simp only [Bool.false_eq_true, false_iff]
      push_neg
      omega
    · simp only [true_iff]
      omega
  · simp [hexit]

/-- Witness for the amended C3 at a concrete input: `allowStdErr = 2`,
exit code 0, two stderr lines — evaluated successful. -/
theorem C3_evaluate_step_success_amended_witness :
    evaluate_step_success ⟨[], [], 0, 0, 2, false, false⟩
      ⟨"S".data, "runCommand".data, ⟨"/bin/y".data, none, none⟩, none, none, some 2⟩
      = true :=
  (C3_evaluate_step_success_amended ⟨[], [], 0, 0, 2, false, false⟩
      ⟨"S".data, "runCommand".data, ⟨"/bin/y".data, none, none⟩, none, none, some 2⟩
      (by decide) (by decide) (by decide)).mpr (by decide)

/-- Replace a step's `allowStdErr` field. -/
def set_allow_std_err_step (t : Option Int) (s : JobStep) : JobStep :=
  ⟨{ s.action with allow_std_err := t }⟩

/-- Replace `allowStdErr` on every step of a document, final step included. -/
def set_allow_std_err_doc (t : Option Int) (doc : JobDocument) : JobDocument :=
  { doc with
    steps := doc.steps.map (set_allow_std_err_step t),
    final_step := doc.final_step.map (set_allow_std_err_step t) }

lemma validate_step_set_allow (t : Option Int) (s : JobStep) :
    validate_step (set_allow_std_err_step t s) = validate_step s := rfl

lemma validate_steps_map_set_allow (t : Option Int) (l : List JobStep) :
    validate_steps (l.map (set_allow_std_err_step t)) = validate_steps l := by
  induction l with
  | nil => rfl
  | cons s rest ih =>
    simp only [List.map_cons]
    unfold validate_steps
    rw [validate_step_set_allow, ih]

/-- C10: a negative `allowStdErr` is sign-extended by the `as usize` cast
into a huge allowance, so with exit code 0 the step is evaluated
successful regardless of its stderr line count (any count producible
under the 32 KiB output cap), and `validate_job_document` never inspects
`allowStdErr`, so such a document is not rejected on that account. -/
theorem C10_negative_allow_std_err (out : ExecutionOutput) (action : JobAction)
    (t : Int) (ht : action.allow_std_err = some t) (hneg : t < 0)
    (hrange : -(2 ^ 31) ≤ t)
    (hcount : out.stderr_line_count < 2 ^ 64 - 2 ^ 31)
    (hexit : out.exit_code = 0) :
    evaluate_step_success out action = true ∧
    ∀ (t' : Option Int) (doc : JobDocument),
      validate_job_document (set_allow_std_err_doc t' doc) = validate_job_document doc := by
  constructor
  · unfold evaluate_step_success i32_as_usize
    simp only [hexit, ne_eq, not_true_eq_false, if_false, ite_not, ht, Option.getD_some]
    split_ifs with hcontra
    · exfalso
      omega
    · rfl
  · intro t' doc
    unfold validate_job_document set_allow_std_err_doc
    simp only [List.isEmpty_eq_true, List.map_eq_nil_iff]
    split_ifs
    · rfl
    · rfl
    · rw [show (doc.final_step.map (set_allow_std_err_step t')).toList
            = (doc.final_step.toList).map (set_allow_std_err_step t') by
          cases doc.final_step <;> rfl,
        ← List.map_append, validate_steps_map_set_allow]

/-- Witness for C10 at a concrete input: `allowStdErr = -1`, exit code 0,
five stderr lines. -/
theorem C10_negative_allow_std_err_witness :
    evaluate_step_success fiveStderrOutput negAllowAction = true ∧
    validate_job_document (set_allow_std_err_doc (some (-1)) wGoodDoc)
      = validate_job_document wGoodDoc := by
  have h := C10_negative_allow_std_err fiveStderrOutput negAllowAction (-1)
    (by decide) (by decide) (by decide) (by decide) (by decide)
  exact ⟨h.1, h.2 (some (-1)) wGoodDoc⟩

-- ============================================================================
-- Supporting lemmas: the step loop
-- ============================================================================

lemma executeSteps_success_iff (env : ExecEnv) (l : List JobStep) :
    (executeSteps env l).2.1 = true ↔ ∀ s ∈ l, stepPassesB env s = true := by
  induction l with
  | nil => simp [executeSteps]
  | cons s rest ih =>
    unfold executeSteps
    rcases hr : runStep env s.action with e | out
    · cases hig : s.action.ignore_step_failure.getD false with
      | false => simp [stepPassesB, hr, hig]
      | true => simp [stepPassesB, hr, hig, ih]
    · cases hev : evaluate_step_success out s.action with
      | false =>
        cases hig : s.action.ignore_step_failure.getD false with
        | false => simp [stepPassesB, hr, hig, hev]
        | true => simp [stepPassesB, hr, hig, hev, ih]
      | true => simp [stepPassesB, hr, hev, ih]

/-- After a step that passes, the loop records its output (when the runner
produced one, with `ignored_failure` iff it failed) and continues. -/
lemma executeSteps_cons_pass_ok (env : ExecEnv) (s : JobStep) (rest : List JobStep)
    (out : ExecutionOutput) (hr : runStep env s.action = .ok out)
    (hp : stepPassesB env s = true) :
    executeSteps env (s :: rest) =
      (⟨s.action.name, out, !evaluate_step_success out s.action⟩
          :: (executeSteps env rest).1,
        (executeSteps env rest).2.1, (executeSteps env rest).2.2) := by
  rw [executeSteps, hr]
  simp only [stepPassesB, hr] at hp
  cases hev : evaluate_step_success out s.action with
  | false =>
    rw [hev] at hp
    simp only [Bool.false_or] at hp
    simp [hev, hp]
  | true => simp [hev]

lemma executeSteps_cons_pass_error (env : ExecEnv) (s : JobStep) (rest : List JobStep)
    (e : DeviceOpsError) (hr : runStep env s.action = .error e)
    (hp : stepPassesB env s = true) :
    executeSteps env (s :: rest) = executeSteps env rest := by
  rw [executeSteps, hr]
  simp only [stepPassesB, hr] at hp
  simp [hp]

/-- A failing step whose failure is not ignored halts the loop: the steps
after it are irrelevant, the loop reports failure with that step's name,
and the recorded outputs are exactly those of the runner-produced outputs
among the steps up to and including the failing one. -/
lemma executeSteps_halt (env : ExecEnv) (pre : List JobStep) (s : JobStep)
    (post : List JobStep)
    (hpre : ∀ p ∈ pre, stepPassesB env p = true)
    (hs : stepPassesB env s = false) :
    executeSteps env (pre ++ s :: post) = executeSteps env (pre ++ [s]) ∧
    (executeSteps env (pre ++ [s])).2.1 = false ∧
    (executeSteps env (pre ++ [s])).2.2 = some s.action.name ∧
    (executeSteps env (pre ++ [s])).1.length
      = (pre ++ [s]).countP (fun p => (runStep env p.action).isOk) := by
  induction pre with
  | nil =>
    simp only [List.nil_append, List.countP_cons, List.countP_nil]
    unfold executeSteps
    rcases hr : runStep env s.action with e | out
    · simp only [stepPassesB, hr] at hs
      simp [hs, Except.isOk, Except.toBool]
    · simp only [stepPassesB, hr, Bool.or_eq_false_iff] at hs
      simp [hs.1, hs.2, Except.isOk, Except.toBool]
  | cons p pre' ih =>
    have hp : stepPassesB env p = true := hpre p (by simp)
    have ih' := ih (fun q hq => hpre q (by simp [hq]))
    rcases hr : runStep env p.action with e | out
    · rw [List.cons_append, List.cons_append,
        executeSteps_cons_pass_error env p _ e hr hp,
        executeSteps_cons_pass_error env p _ e hr hp]
      refine ⟨ih'.1, ih'.2.1, ih'.2.2.1, ?_⟩
      rw [ih'.2.2.2]
      simp [List.countP_cons, hr, Except.isOk, Except.toBool]
    · rw [List.cons_append, List.cons_append,
        executeSteps_cons_pass_ok env p _ out hr hp,
        executeSteps_cons_pass_ok env p _ out hr hp]
      refine ⟨by rw [ih'.1], ih'.2.1, ih'.2.2.1, ?_⟩
      simp only [List.length_cons, List.countP_cons, hr, Except.isOk, Except.toBool,
        ih'.2.2.2]
      simp

lemma execute_of_loop_failed (env : ExecEnv) (doc : JobDocument)
    (h : (executeSteps env doc.steps).2.1 = false) :
    execute env doc =
      { outputs := (executeSteps env doc.steps).1,
        overall_success := false,
        failed_step := (executeSteps env doc.steps).2.2 } := by
  simp [execute, h]

-- ============================================================================
-- C1: step-failure policy
-- ============================================================================

/-- C1 (amended): when a regular step fails un-ignored after earlier steps
all passed, `execute` halts — the remaining steps and the final step never
influence the result — with `overall_success = false` and `failed_step`
the failing step's name; the recorded outputs are exactly the
runner-produced outputs among the steps up to and including the failing
one (so their number equals the failing step's 1-based index exactly when
every one of those steps returned an output).  A failed step with the
flag set has its output recorded with `ignored_failure = true` and the
loop continues; on a runner error the same abort/continue branching
applies, but no output is recorded. -/
theorem C1_step_failure_policy (env : ExecEnv) (doc : JobDocument)
    (pre : List JobStep) (s : JobStep) (post : List JobStep)
    (hsteps : doc.steps = pre ++ s :: post)
    (hpre : ∀ p ∈ pre, stepPassesB env p = true)
    (hs : stepPassesB env s = false) :
    (execute env doc = execute env { doc with steps := pre ++ [s], final_step := none } ∧
     (execute env doc).overall_success = false ∧
     (execute env doc).failed_step = some s.action.name ∧
     (execute env doc).outputs.length
       = (pre ++ [s]).countP (fun p => (runStep env p.action).isOk)) ∧
    (∀ (p : JobStep) (rest : List JobStep) (out : ExecutionOutput),
      runStep env p.action = .ok out →
      evaluate_step_success out p.action = false →
      p.action.ignore_step_failure.getD false = true →
      executeSteps env (p :: rest) =
        (⟨p.action.name, out, true⟩ :: (executeSteps env rest).1,
          (executeSteps env rest).2.1, (executeSteps env rest).2.2)) ∧
    (∀ (p : JobStep) (rest : List JobStep) (e : DeviceOpsError),
      runStep env p.action = .error e →
      p.action.ignore_step_failure.getD false = true →
      executeSteps env (p :: rest) = executeSteps env rest) := by
  have hhalt := executeSteps_halt env pre s post hpre hs
  refine ⟨?_, ?_, ?_⟩
  · have hloop : executeSteps env doc.steps = executeSteps env (pre ++ [s]) := by
      rw [hsteps, hhalt.1]
    have hfail : (executeSteps env doc.steps).2.1 = false := by
      rw [hloop]; exact hhalt.2.1
    have hname : (executeSteps env doc.steps).2.2 = some s.action.name := by
      rw [hloop]; exact hhalt.2.2.1
    have h1 := execute_of_loop_failed env doc hfail
    have h2 := execute_of_loop_failed env
      { doc with steps := pre ++ [s], final_step := none }
      (by simpa using hhalt.2.1)
    refine ⟨?_, by rw [h1], by rw [h1]; exact hname, ?_⟩
    · rw [h1, h2]
      simp only [hloop]
    · rw [h1]
      simp only [hloop, hhalt.2.2.2]
  · intro p rest out hr hev hig
    have hp : stepPassesB env p = true := by
      simp [stepPassesB, hr, hig]
    have := executeSteps_cons_pass_ok env p rest out hr hp
    rw [this, hev]
    rfl
  · intro p rest e hr hig
    exact executeSteps_cons_pass_error env p rest e hr
      (by simp [stepPassesB, hr, hig])

/-- The two steps and the environment of the C1 counterexample: step "A"
hits a runner error that is ignored, step "B" returns an output with exit
code 1 and no ignore flag. -/
def cexStepA : JobStep :=
  ⟨⟨"A".data, "runCommand".data, ⟨"/bin/a".data, none, none⟩, none, some true, none⟩⟩

def cexStepB : JobStep :=
  ⟨⟨"B".data, "runCommand".data, ⟨"/bin/b".data, none, none⟩, none, none, none⟩⟩

def cexEnvC1 : ExecEnv := fun input _ =>
  if input.command = "/bin/a".data then .error (.ExecutionError "spawn failure".data)
  else .ok ⟨[], [], 1, 0, 0, false, false⟩

def cexDocC1 : JobDocument := ⟨"1.0".data, [cexStepA, cexStepB], none, none⟩

/-- Counterexample to C1 as stated: in `cexDocC1` the second step "B"
(1-based index 2) fails un-ignored with a runner-produced output, yet
`outputs` has length 1, not 2 — the first step's ignored runner error
recorded no output, contradicting the claim that outputs always has
length equal to the failing step's 1-based index (and that an ignored
runner failure records an output). -/
theorem C1_counterexample :
    cexDocC1.steps = [cexStepA, cexStepB] ∧
    stepPassesB cexEnvC1 cexStepA = true ∧
    (runStep cexEnvC1 cexStepB.action
        = .ok ⟨[], [], 1, 0, 0, false, false⟩ ∧
      evaluate_step_success ⟨[], [], 1, 0, 0, false, false⟩ cexStepB.action = false) ∧
    cexStepB.action.ignore_step_failure.getD false = false ∧
    (execute cexEnvC1 cexDocC1).failed_step = some cexStepB.action.name ∧
    (execute cexEnvC1 cexDocC1).outputs.length = 1 ∧
    (execute cexEnvC1 cexDocC1).outputs.length ≠ 2 := by
  refine ⟨rfl, by decide, ⟨rfl, by decide⟩, by decide, by decide, by decide, by decide⟩

/-- Witness for the amended C1, at the counterexample input: applying the
theorem with `pre = [cexStepA]` yields overall failure, failing step "B",
and exactly one recorded output (the runner-produced outputs among steps
A and B). -/
theorem C1_step_failure_policy_witness :
    (execute cexEnvC1 cexDocC1).overall_success = false ∧
    (execute cexEnvC1 cexDocC1).failed_step = some "B".data ∧
    (execute cexEnvC1 cexDocC1).outputs.length = 1 :=
  have h := C1_step_failure_policy cexEnvC1 cexDocC1 [cexStepA] cexStepB [] rfl
    (by decide) (by decide)
  ⟨h.1.2.1, h.1.2.2.1, by rw [h.1.2.2.2]; decide⟩

-- ============================================================================
-- C2: final-step policy
-- ============================================================================

/-- C2: the final step runs iff every regular step passed (succeeded or
had its failure ignored): if some regular step fails un-ignored the result
is as if the document had no final step; if all pass, the result reflects
the final step — its runner output is recorded with `ignored_failure =
false`, a failed evaluation or a runner error unconditionally sets
`overall_success = false` and `failed_step` to the final step's name — and
the result is entirely independent of the final step's
`ignore_step_failure` flag. -/
theorem C2_final_step_policy (env : ExecEnv) (doc : JobDocument) (fs : JobStep)
    (hfs : doc.final_step = some fs) :
    ((¬ ∀ s ∈ doc.steps, stepPassesB env s = true) →
        execute env doc = execute env { doc with final_step := none }) ∧
    (∀ out : ExecutionOutput, (∀ s ∈ doc.steps, stepPassesB env s = true) →
        runStep env fs.action = .ok out →
        (execute env doc).outputs
          = (executeSteps env doc.steps).1 ++ [⟨fs.action.name, out, false⟩] ∧
        (execute env doc).overall_success = evaluate_step_success out fs.action ∧
        (execute env doc).failed_step
          = if evaluate_step_success out fs.action then none
            else some fs.action.name) ∧
    (∀ e : DeviceOpsError, (∀ s ∈ doc.steps, stepPassesB env s = true) →
        runStep env fs.action = .error e →
        (execute env doc).outputs = (executeSteps env doc.steps).1 ∧
        (execute env doc).overall_success = false ∧
        (execute env doc).failed_step = some fs.action.name) ∧
    (∀ b : Option Bool,
        execute env doc = execute env { doc with final_step := some (setIgnoreFlag fs b) }) := by
  refine ⟨?_, ?_, ?_, ?_⟩
  · intro hnot
    have hfail : (executeSteps env doc.steps).2.1 = false := by
      cases hsucc : (executeSteps env doc.steps).2.1 with
      | false => rfl
      | true => exact absurd ((executeSteps_success_iff env doc.steps).mp hsucc) hnot
    rw [execute_of_loop_failed env doc hfail,
      execute_of_loop_failed env { doc with final_step := none } (by simpa using hfail)]
  · intro out hall hr
    have hsucc : (executeSteps env doc.steps).2.1 = true :=
      (executeSteps_success_iff env doc.steps).mpr hall
    simp only [execute, hsucc, hfs, hr, if_true]
    cases hev : evaluate_step_success out fs.action <;> simp [hev]
  · intro e hall hr
    have hsucc : (executeSteps env doc.steps).2.1 = true :=
      (executeSteps_success_iff env doc.steps).mpr hall
    simp [execute, hsucc, hfs, hr]
  · intro b
    simp only [execute, hfs, setIgnoreFlag]
    rfl

/-- Environment and document for the C2 witness: the single regular step
succeeds, the final step fails with exit code 1 even though its
`ignore_step_failure` flag is set. -/
def wEnvC2 : ExecEnv := fun input _ =>
  if input.command = "/bin/finalfail".data then .ok ⟨[], [], 1, 0, 0, false, false⟩
  else .ok ⟨"ok".data, [], 0, 0, 0, false, false⟩

def wFinalC2 : JobStep :=
  ⟨⟨"Final".data, "runCommand".data, ⟨"/bin/finalfail".data, none, none⟩,
    none, some true, none⟩⟩

def wDocC2 : JobDocument :=
  ⟨"1.0".data,
   [⟨⟨"Main".data, "runCommand".data, ⟨"/bin/main".data, none, none⟩, none, none, none⟩⟩],
   some wFinalC2, none⟩

/-- Witness for C2 at a concrete input: after a passing regular step, the
failing final step marks the job failed with its own name, despite its
`ignore_step_failure = true` flag. -/
theorem C2_final_step_policy_witness :
    (execute wEnvC2 wDocC2).overall_success = false ∧
    (execute wEnvC2 wDocC2).failed_step = some "Final".data :=
  have h := (C2_final_step_policy wEnvC2 wDocC2 wFinalC2 rfl).2.1
    ⟨[], [], 1, 0, 0, false, false⟩ (by decide) rfl
  ⟨by rw [h.2.1]; decide, by rw [h.2.2]; decide⟩

-- ============================================================================
-- C8: deduplication ledger
-- ============================================================================

/-- C8: `mark_job_processed` returns `true` exactly on the first call for
an identifier (the id is then in the ledger, so an immediate redelivery
returns `false` and — via `handle_job` — publishes no second status
report, for valid jobs and parse errors alike); a known identifier leaves
the ledger unchanged; the capacity invariant `length ≤ 100` is preserved
by every call; and on a full ledger a new identifier evicts exactly the
oldest entry. -/
theorem C8_dedup_ledger (ledger : List (List Char)) (job_id : List Char)
    (hcap : ledger.length ≤ 100) :
    (job_id ∉ ledger →
      (mark_job_processed ledger job_id).1 = true ∧
      job_id ∈ (mark_job_processed ledger job_id).2) ∧
    (job_id ∈ ledger → mark_job_processed ledger job_id = (false, ledger)) ∧
    ((mark_job_processed ledger job_id).2.length ≤ 100) ∧
    (ledger.length = 100 → job_id ∉ ledger →
      (mark_job_processed ledger job_id).2 = ledger.tail ++ [job_id]) ∧
    ((handle_job_reports ledger job_id).1
        + (handle_job_reports (handle_job_reports ledger job_id).2 job_id).1
      = if job_id ∈ ledger then 0 else 1) := by
  have hmem_after : job_id ∉ ledger →
      job_id ∈ (mark_job_processed ledger job_id).2 := by
    intro hnot
    simp only [mark_job_processed, if_neg hnot]
    split_ifs with hlen
    · rcases ledger with _ | ⟨a, t⟩
      · simp at hlen
      · simp
    · simp
  refine ⟨fun hnot => ⟨by simp [mark_job_processed, if_neg hnot], hmem_after hnot⟩,
    fun hmem => by simp [mark_job_processed, if_pos hmem], ?_, ?_, ?_⟩
  · by_cases hmem : job_id ∈ ledger
    · simpa [mark_job_processed, if_pos hmem] using hcap
    · simp only [mark_job_processed, if_neg hmem]
      split_ifs with hlen <;> simp_all
  · intro hlen hmem
    simp only [mark_job_processed, if_neg hmem]
    have hgt : (ledger ++ [job_id]).length > 100 := by simp [hlen]
    rw [if_pos hgt]
    rcases ledger with _ | ⟨a, t⟩
    · simp at hlen
    · simp
  · by_cases hmem : job_id ∈ ledger
    · simp [handle_job_reports, mark_job_processed, if_pos hmem]
    · have key : ∀ L : List (List Char), job_id ∈ L →
          (handle_job_reports L job_id).1 = 0 := by
        intro L hL
        simp [handle_job_reports, mark_job_processed, if_pos hL]
      have key1 : (handle_job_reports ledger job_id).1 = 1 := by
        simp [handle_job_reports, mark_job_processed, if_neg hmem]
      have key2 : (handle_job_reports ledger job_id).2
          = (mark_job_processed ledger job_id).2 := rfl
      rw [if_neg hmem, key1, key2, key _ (hmem_after hmem)]

/-- Witness for C8 at concrete inputs: a fresh id is marked new, a known
id is rejected leaving the ledger unchanged, and delivering the same id
twice produces exactly one status report. -/
theorem C8_dedup_ledger_witness :
    (mark_job_processed ["j1".data] "j2".data).1 = true ∧
    mark_job_processed ["j1".data, "j2".data] "j2".data
      = (false, ["j1".data, "j2".data]) ∧
    (handle_job_reports ["j1".data] "j2".data).1
        + (handle_job_reports (handle_job_reports ["j1".data] "j2".data).2 "j2".data).1
      = 1 :=
  have h := C8_dedup_ledger ["j1".data] "j2".data (by decide)
  have h' := C8_dedup_ledger ["j1".data, "j2".data] "j2".data (by decide)
  ⟨(h.1 (by decide)).1, h'.2.1 (by decide), by rw [h.2.2.2.2]; decide⟩

-- ============================================================================
-- C9: per-step timeout and process termination
-- ============================================================================

/-- A step asking to run `/bin/sleep 600` with a 1-second timeout override. -/
def sleepAction : JobAction :=
  ⟨"Sleep".data, "runCommand".data,
    ⟨"/bin/sleep".data, some ["600".data], some 1⟩, none, none, none⟩

def dummyOut : ExecutionOutput := ⟨[], [], 0, 0, 0, false, false⟩

/-- C9 exhibit: the per-step timeout is the step's override when present
(1 second here), else the configured default (300); when the process
outlives the timeout the step surfaces `TimeoutError` — but the spawned
process is NOT terminated (`processTerminatedOnTimeout = false`):
`SystemCommandRunner::run` (command.rs 33-55) neither sets
`kill_on_drop(true)` nor issues any kill, so the future dropped by
`tokio::time::timeout` leaves the OS process running, contradicting the
claim and the source's own comment "Spawn the process so we can kill it
on timeout" (command.rs 48). -/
theorem C9_timeout_without_kill :
    step_timeout_secs ⟨300⟩ sleepAction = 1 ∧
    step_timeout_secs ⟨300⟩
      ⟨sleepAction.name, sleepAction.action_type,
        ⟨sleepAction.input.command, sleepAction.input.args, none⟩,
        none, none, none⟩ = 300 ∧
    (run_with_timeout (step_timeout_secs ⟨300⟩ sleepAction) 600 (.ok dummyOut)).result
      = .error (.TimeoutError 1) ∧
    (run_with_timeout (step_timeout_secs ⟨300⟩ sleepAction) 600
        (.ok dummyOut)).processTerminatedOnTimeout = false := by
  refine ⟨rfl, rfl, ?_, rfl⟩
  decide

-- ============================================================================
-- C6: status-details formatting
-- ============================================================================

lemma fsd_length_le (r : JobExecutionResult) (inc : Bool) :
    (format_status_details r inc).length ≤ 10 := by
  unfold format_status_details
  rcases hf : r.failed_step with _ | name <;>
    rcases hh : r.outputs.head? with _ | st <;>
      simp only [hf, hh] <;> split_ifs <;> simp

lemma fsd_values_str (r : JobExecutionResult) (inc : Bool) :
    ∀ kv ∈ format_status_details r inc, kv.2.isStr = true := by
  unfold format_status_details
  rcases hf : r.failed_step with _ | name <;>
    rcases hh : r.outputs.head? with _ | st <;>
      simp only [hf, hh] <;> split_ifs <;>
        simp [Json.isStr]

lemma fsd_has_steps_executed (r : JobExecutionResult) (inc : Bool) :
    "steps_executed".data ∈ (format_status_details r inc).map Prod.fst := by
  unfold format_status_details
  rcases hf : r.failed_step with _ | name <;>
    rcases hh : r.outputs.head? with _ | st <;>
      simp only [hf, hh] <;> split_ifs <;> simp

lemma fsd_has_overall_success (r : JobExecutionResult) (inc : Bool) :
    "overall_success".data ∈ (format_status_details r inc).map Prod.fst := by
  unfold format_status_details
  rcases hf : r.failed_step with _ | name <;>
    rcases hh : r.outputs.head? with _ | st <;>
      simp only [hf, hh] <;> split_ifs <;> simp

lemma fsd_failed_step_iff (r : JobExecutionResult) (inc : Bool) :
    ("failed_step".data ∈ (format_status_details r inc).map Prod.fst)
      ↔ r.failed_step.isSome = true := by
  unfold format_status_details
  rcases hf : r.failed_step with _ | name <;>
    rcases hh : r.outputs.head? with _ | st <;>
      simp only [hf, hh] <;> split_ifs <;> simp

lemma fsd_multi_step (r : JobExecutionResult) (inc : Bool) :
    r.outputs.length > 1 →
      ("steps".data, Json.str (encodeSummaryArray inc r.outputs))
          ∈ format_status_details r inc ∧
      "step_name".data ∉ (format_status_details r inc).map Prod.fst ∧
      "exit_code".data ∉ (format_status_details r inc).map Prod.fst := by
  intro hlen
  unfold format_status_details
  rcases hf : r.failed_step with _ | name <;>
    simp only [hf, if_pos hlen] <;>
      refine ⟨by simp, by simp, by simp⟩

/-- C6: `format_status_details` always yields at most 10 entries, all
string-valued; the steps-executed and overall-success fields are always
present; the failed-step field is present exactly when the result carries
one; and with more than one recorded step the per-step data collapses
into the single JSON-encoded `steps` field (no per-step flat fields), so
the entry count stays bounded for any number of steps. -/
theorem C6_format_status_details_bounded (r : JobExecutionResult) (inc : Bool) :
    (format_status_details r inc).length ≤ 10 ∧
    (∀ kv ∈ format_status_details r inc, kv.2.isStr = true) ∧
    "steps_executed".data ∈ (format_status_details r inc).map Prod.fst ∧
    "overall_success".data ∈ (format_status_details r inc).map Prod.fst ∧
    (("failed_step".data ∈ (format_status_details r inc).map Prod.fst)
       ↔ r.failed_step.isSome = true) ∧
    (r.outputs.length > 1 →
      ("steps".data, Json.str (encodeSummaryArray inc r.outputs))
          ∈ format_status_details r inc ∧
      "step_name".data ∉ (format_status_details r inc).map Prod.fst ∧
      "exit_code".data ∉ (format_status_details r inc).map Prod.fst) :=
  ⟨fsd_length_le r inc, fsd_values_str r inc, fsd_has_steps_executed r inc,
   fsd_has_overall_success r inc, fsd_failed_step_iff r inc, fsd_multi_step r inc⟩

/-- A concrete two-step execution result for the C6 witness. -/
def wResC6 : JobExecutionResult :=
  ⟨[⟨"S1".data, dummyOut, false⟩, ⟨"S2".data, ⟨[], [], 1, 0, 0, false, false⟩, true⟩],
   false, some "S2".data⟩

/-- Witness for C6 at a concrete two-step result. -/
theorem C6_format_status_details_bounded_witness :
    (format_status_details wResC6 true).length ≤ 10 ∧
    ("steps".data, Json.str (encodeSummaryArray true wResC6.outputs))
      ∈ format_status_details wResC6 true :=
  have h := C6_format_status_details_bounded wResC6 true
  ⟨h.1, (h.2.2.2.2.2 (by decide)).1⟩

-- ============================================================================
-- Supporting lemmas: output capping
-- ============================================================================

lemma utf8Len_append (a b : List Char) :
    utf8Len (a ++ b) = utf8Len a + utf8Len b := by
  induction a with
  | nil => simp [utf8Len]
  | cons c cs ih => simp [utf8Len, ih]; omega

/-- When `String::truncate` returns (does not panic), its result fits the
requested byte budget. -/
lemma rustTruncate_le (l : List Char) :
    ∀ (n : Nat) (t : List Char), rustTruncate l n = some t → utf8Len t ≤ n := by
  induction l with
  | nil =>
    intro n t h
    rcases n with _ | n <;> simp only [rustTruncate, Option.some.injEq] at h <;>
      rw [← h] <;> simp [utf8Len]
  | cons c cs ih =>
    intro n t h
    rcases n with _ | n
    · simp only [rustTruncate, Option.some.injEq] at h
      rw [← h]
      simp [utf8Len]
    · simp only [rustTruncate] at h
      split_ifs at h with hc
      rcases ht : rustTruncate cs (n + 1 - c.utf8Size) with _ | t'
      · rw [ht] at h
        simp at h
      · rw [ht] at h
        simp only [Option.map_some', Option.some.injEq] at h
        have := ih _ _ ht
        rw [← h]
        simp only [utf8Len]
        omega

lemma utf8Len_replicate (n : Nat) (c : Char) :
    utf8Len (List.replicate n c) = n * c.utf8Size := by
  induction n with
  | zero => simp [utf8Len]
  | succ m ih => simp [List.replicate_succ, utf8Len, ih]; ring

/-- Truncating a run of one-byte characters at an offset inside the run
succeeds and keeps exactly the budgeted prefix. -/
lemma rustTruncate_replicate_one (c : Char) (hc : c.utf8Size = 1) :
    ∀ (k n : Nat) (rest : List Char), k ≤ n →
      rustTruncate (List.replicate n c ++ rest) k = some (List.replicate k c) := by
  intro k
  induction k with
  | zero =>
    intro n rest _
    rcases List.replicate n c ++ rest with _ | ⟨x, xs⟩ <;> rfl
  | succ m ih =>
    intro n rest hmn
    rcases n with _ | n'
    · omega
    · rw [List.replicate_succ, List.cons_append]
      unfold rustTruncate
      rw [if_pos (by omega), hc]
      rw [show m + 1 - 1 = m from rfl, ih n' rest (by omega)]
      rw [Option.map_some', ← List.replicate_succ]

/-- Truncating a run of three-byte characters at an offset that is not a
multiple of three lands inside a character: the truncation panics. -/
lemma rustTruncate_replicate_stuck (c : Char) (hc : c.utf8Size = 3) :
    ∀ (n k : Nat) (rest : List Char), 0 < k → k < 3 * n → k % 3 ≠ 0 →
      rustTruncate (List.replicate n c ++ rest) k = none := by
  intro n
  induction n with
  | zero =>
    intro k rest _ hk _
    omega
  | succ n' ih =>
    intro k rest hk0 hk hkm
    rcases k with _ | m
    · omega
    · rw [List.replicate_succ, List.cons_append]
      unfold rustTruncate
      split_ifs with hle
      · rw [hc]
        rw [ih (m + 1 - 3) rest (by rw [hc] at hle; omega) (by omega) (by omega)]
        rfl
      · rfl

lemma limitLoop_tr_true (xs : List (List Char)) (idx : Nat) (acc : List Char) :
    (limitLoop xs idx acc true).2 = true := by
  induction xs generalizing idx acc with
  | nil => rfl
  | cons l ls ih =>
    simp only [limitLoop]
    split_ifs
    · rfl
    · exact ih _ _
    · rfl
    · exact ih _ _

lemma limitLoop_count (xs : List (List Char)) (idx : Nat) (acc : List Char)
    (tr : Bool) (h : ∀ l ∈ xs, '\n' ∉ l) :
    (limitLoop xs idx acc tr).1.count '\n' ≤ acc.count '\n' + xs.length := by
  induction xs generalizing idx acc tr with
  | nil => simp [limitLoop]
  | cons l ls ih =>
    have hl : List.count '\n' l = 0 :=
      List.count_eq_zero.mpr (h l (by simp))
    have hrest : ∀ q ∈ ls, '\n' ∉ q := fun q hq => h q (by simp [hq])
    simp only [limitLoop]
    split_ifs
    · simp [List.count_append, hl]
    · refine le_trans (ih _ _ _ hrest) ?_
      simp [List.count_append, hl]
      try omega
    · simp [List.count_append, hl]
    · refine le_trans (ih _ _ _ hrest) ?_
      simp [List.count_append, hl]
      try omega

/-- The suffix of a newline-join: a leading `'\n'` before every line. -/
def glueTail : List (List Char) → List Char
  | [] => []
  | l :: ls => '\n' :: l ++ glueTail ls

/-- Join lines with `'\n'` separators. -/
def joinNl : List (List Char) → List Char
  | [] => []
  | l :: ls => l ++ glueTail ls

lemma splitOnCharAux_chunk (sep : Char) (l : List Char) :
    ∀ (cur rest : List Char), sep ∉ l →
      splitOnCharAux sep cur (l ++ rest) = splitOnCharAux sep (l.reverse ++ cur) rest := by
  induction l with
  | nil => intro cur rest _; simp
  | cons c cs ih =>
    intro cur rest hmem
    have hc : c ≠ sep := fun hh => hmem (by simp [hh])
    rw [List.cons_append]
    show (if c = sep then _ else splitOnCharAux sep (c :: cur) (cs ++ rest)) = _
    rw [if_neg hc, ih (c :: cur) rest (fun hh => hmem (by simp [hh]))]
    simp

lemma splitOnChar_no_sep (sep : Char) (l : List Char) (h : sep ∉ l) :
    splitOnChar sep l = [l] := by
  unfold splitOnChar
  have := splitOnCharAux_chunk sep l [] [] h
  rw [List.append_nil] at this
  rw [this]
  simp [splitOnCharAux]

lemma splitOnChar_joinNl : ∀ (ls : List (List Char)), ls ≠ [] →
    (∀ l ∈ ls, '\n' ∉ l) → splitOnChar '\n' (joinNl ls) = ls := by
  intro ls
  induction ls with
  | nil => intro h; exact absurd rfl h
  | cons l ls ih =>
    intro _ hmem
    rcases ls with _ | ⟨l', ls'⟩
    · simpa [joinNl, glueTail] using splitOnChar_no_sep '\n' l (hmem l (by simp))
    · show splitOnChar '\n' (l ++ glueTail (l' :: ls')) = _
      unfold splitOnChar
      rw [splitOnCharAux_chunk '\n' l [] _ (hmem l (by simp))]
      show splitOnCharAux '\n' (l.reverse ++ []) ('\n' :: (l' ++ glueTail ls')) = _
      rw [show splitOnCharAux '\n' (l.reverse ++ []) ('\n' :: (l' ++ glueTail ls'))
            = (l.reverse ++ []).reverse :: splitOnCharAux '\n' [] (l' ++ glueTail ls') by
          simp [splitOnCharAux]]
      have ihx := ih (by simp) (fun q hq => hmem q (by simp [hq]))
      unfold splitOnChar at ihx
      rw [show joinNl (l' :: ls') = l' ++ glueTail ls' from rfl] at ihx
      rw [ihx]
      simp

lemma stripCR_of_not_mem (l : List Char) (h : '\r' ∉ l) : stripCR l = l := by
  unfold stripCR
  split_ifs with hlast
  · exfalso
    rcases List.mem_getLast?_eq_getLast (l := l) (x := '\r')
        (by simpa [Option.mem_def] using hlast) with ⟨hn, hEq⟩
    exact h (hEq ▸ List.getLast_mem hn)
  · rfl

lemma rustLines_joinNl (ls : List (List Char)) (hne : ls ≠ [])
    (hnl : ∀ l ∈ ls, '\n' ∉ l) (hlast : ls.getLast? ≠ some [])
    (hcr : ∀ l ∈ ls, '\r' ∉ l) :
    rustLines (joinNl ls) = ls := by
  have h1 := splitOnChar_joinNl ls hne hnl
  simp only [rustLines, h1, if_neg hlast]
  have := List.map_congr_left (fun l hl => stripCR_of_not_mem l (hcr l hl))
  simpa using this

lemma mem_of_getLast?_eq {α : Type} (l : List α) (a : α) (h : l.getLast? = some a) :
    a ∈ l := by
  rcases List.mem_getLast?_eq_getLast (l := l) (x := a)
      (by simpa [Option.mem_def] using h) with ⟨hn, hx⟩
  exact hx ▸ List.getLast_mem hn

lemma splitOnCharAux_not_mem (sep : Char) :
    ∀ (s cur : List Char), sep ∉ cur →
      ∀ l ∈ splitOnCharAux sep cur s, sep ∉ l := by
  intro s
  induction s with
  | nil =>
    intro cur hcur l hl
    simp only [splitOnCharAux, List.mem_singleton] at hl
    subst hl
    simpa using hcur
  | cons c cs ih =>
    intro cur hcur l hl
    by_cases hc : c = sep
    · rw [splitOnCharAux, if_pos hc] at hl
      rcases List.mem_cons.mp hl with h | h
      · subst h; simpa using hcur
      · exact ih [] (by simp) l h
    · rw [splitOnCharAux, if_neg hc] at hl
      refine ih (c :: cur) ?_ l hl
      intro hmem
      rcases List.mem_cons.mp hmem with h | h
      · exact hc h.symm
      · exact hcur h

lemma stripCR_not_mem (c : Char) (l : List Char) (h : c ∉ l) : c ∉ stripCR l := by
  unfold stripCR
  split_ifs
  · exact fun hc => h (List.dropLast_subset l hc)
  · exact h

lemma rustLines_no_newline (s : List Char) : ∀ l ∈ rustLines s, '\n' ∉ l := by
  intro l hl
  unfold rustLines at hl
  simp only [List.mem_map] at hl
  rcases hl with ⟨q, hq, rfl⟩
  have hq' : q ∈ splitOnChar '\n' s := by
    revert hq
    split_ifs
    · exact fun hq => List.dropLast_subset _ hq
    · exact id
  exact stripCR_not_mem _ _ (splitOnCharAux_not_mem '\n' s [] (by simp) q hq')

lemma limitedLines_sub (s : List Char) : ∀ l ∈ limitedLines s, '\n' ∉ l := by
  intro l hl
  unfold limitedLines at hl
  exact rustLines_no_newline s l (List.take_subset _ _ hl)

lemma limitedLines_length_le (s : List Char) :
    (limitedLines s).length ≤ MAX_OUTPUT_LINES := by
  simp only [limitedLines]
  split_ifs with h
  · simp [List.length_take]
  · simp only [List.length_take]
    omega

lemma limitLoop_no_break_tail :
    ∀ (xs : List (List Char)) (acc : List Char) (tr : Bool) (idx : Nat), idx > 0 →
      utf8Len (acc ++ glueTail xs) ≤ MAX_OUTPUT_BYTES - 100 →
      limitLoop xs idx acc tr = (acc ++ glueTail xs, tr) := by
  intro xs
  induction xs with
  | nil =>
    intro acc tr idx _ _
    simp [limitLoop, glueTail]
  | cons l ls ih =>
    intro acc tr idx hidx hlen
    have hglue : acc ++ glueTail (l :: ls) = (acc ++ '\n' :: l) ++ glueTail ls := by
      simp [glueTail]
    rw [hglue] at hlen ⊢
    have hacc : utf8Len (acc ++ '\n' :: l) ≤ MAX_OUTPUT_BYTES - 100 := by
      rw [utf8Len_append] at hlen
      omega
    simp only [limitLoop, if_pos hidx]
    rw [if_neg (by omega)]
    exact ih (acc ++ '\n' :: l) tr (idx + 1) (by omega) hlen

lemma limitLoop_start (l : List Char) (ls : List (List Char)) (tr : Bool)
    (h : utf8Len (l ++ glueTail ls) ≤ MAX_OUTPUT_BYTES - 100) :
    limitLoop (l :: ls) 0 [] tr = (l ++ glueTail ls, tr) := by
  have hl : utf8Len l ≤ MAX_OUTPUT_BYTES - 100 := by
    rw [utf8Len_append] at h
    omega
  simp only [limitLoop, gt_iff_lt, lt_irrefl, if_false, List.nil_append]
  rw [if_neg (by omega)]
  exact limitLoop_no_break_tail ls l tr 1 (by omega) h

lemma utf8Len_glueTail_single (c : Char) (hc : c.utf8Size = 1) (n : Nat) :
    utf8Len (glueTail (List.replicate n [c])) = 2 * n := by
  induction n with
  | zero => rfl
  | succ m ih =>
    rw [List.replicate_succ]
    show utf8Len ('\n' :: [c] ++ glueTail (List.replicate m [c])) = 2 * (m + 1)
    rw [utf8Len_append, ih]
    simp only [utf8Len, hc]
    have : ('\n').utf8Size = 1 := by decide
    omega

lemma utf8Len_joinNl_single (c : Char) (hc : c.utf8Size = 1) (n : Nat) :
    utf8Len (joinNl (List.replicate (n + 1) [c])) = 2 * n + 1 := by
  rw [List.replicate_succ]
  show utf8Len ([c] ++ glueTail (List.replicate n [c])) = 2 * n + 1
  rw [utf8Len_append, utf8Len_glueTail_single c hc]
  simp only [utf8Len, hc]
  omega

/-- The final size truncation (command.rs lines 119-122) caps any string
it returns at the 32 KiB budget. -/
lemma final_truncation_cap (res : List Char) (tr : Bool) (out : List Char × Bool)
    (h : (if utf8Len res > MAX_OUTPUT_BYTES then
        (rustTruncate res (MAX_OUTPUT_BYTES - 50)).map (fun t => (t ++ sizeMarker, tr))
      else some (res, tr)) = some out) :
    utf8Len out.1 ≤ MAX_OUTPUT_BYTES := by
  split_ifs at h with hcond
  · rcases htr : rustTruncate res (MAX_OUTPUT_BYTES - 50) with _ | t
    · rw [htr] at h
      simp at h
    · rw [htr] at h
      simp only [Option.map_some', Option.some.injEq] at h
      have h1 := rustTruncate_le res (MAX_OUTPUT_BYTES - 50) t htr
      have hsize : utf8Len sizeMarker = 31 := by decide
      rw [← h]
      show utf8Len (t ++ sizeMarker) ≤ _
      rw [utf8Len_append, hsize]
      simp only [MAX_OUTPUT_BYTES] at h1 ⊢
      omega
  · cases h
    simp only [MAX_OUTPUT_BYTES] at hcond ⊢
    omega

lemma limit_output_byte_cap (s : List Char) (res : List Char × Bool)
    (h : limit_output s = some res) : utf8Len res.1 ≤ MAX_OUTPUT_BYTES := by
  simp only [limit_output] at h
  exact final_truncation_cap _ _ _ h

lemma limitLoop_line_cap (s : List Char) (b : Bool) :
    ((limitLoop (limitedLines s) 0 [] b).1).count '\n' < MAX_OUTPUT_LINES := by
  rcases hL : limitedLines s with _ | ⟨l, ls⟩
  · simp [limitLoop, MAX_OUTPUT_LINES]
  · have hlen : ls.length + 1 ≤ MAX_OUTPUT_LINES := by
      have := limitedLines_length_le s
      rw [hL] at this
      simpa using this
    have hl : List.count '\n' l = 0 :=
      List.count_eq_zero.mpr (limitedLines_sub s l (by rw [hL]; simp))
    have hrest : ∀ q ∈ ls, '\n' ∉ q :=
      fun q hq => limitedLines_sub s q (by rw [hL]; simp [hq])
    simp only [limitLoop, gt_iff_lt, lt_irrefl, if_false, List.nil_append]
    split_ifs with hb
    · show List.count '\n' l < MAX_OUTPUT_LINES
      rw [hl]
      simp only [MAX_OUTPUT_LINES] at hlen ⊢
      omega
    · have hcnt := limitLoop_count ls (0 + 1) l b hrest
      rw [hl] at hcnt
      simp only [MAX_OUTPUT_LINES] at hlen ⊢
      omega

/-- The final size truncation never changes the truncated flag of a
returned result. -/
lemma final_truncation_flag (res : List Char) (tr : Bool) (out : List Char × Bool)
    (h : (if utf8Len res > MAX_OUTPUT_BYTES then
        (rustTruncate res (MAX_OUTPUT_BYTES - 50)).map (fun t => (t ++ sizeMarker, tr))
      else some (res, tr)) = some out) :
    out.2 = tr := by
  split_ifs at h with hcond
  · rcases htr2 : rustTruncate res (MAX_OUTPUT_BYTES - 50) with _ | t
    · rw [htr2] at h
      simp at h
    · rw [htr2] at h
      simp only [Option.map_some', Option.some.injEq] at h
      rw [← h]
  · cases h
    rfl

lemma limit_output_flag_of_many_lines (s : List Char)
    (hgt : (rustLines s).length > MAX_OUTPUT_LINES) :
    ∀ res : List Char × Bool, limit_output s = some res → res.2 = true := by
  intro res h
  have htr : decide ((rustLines s).length > MAX_OUTPUT_LINES) = true := by
    simpa using hgt
  simp only [limit_output, htr] at h
  rw [final_truncation_flag _ _ _ h]
  exact limitLoop_tr_true _ _ _

/-- `limit_output` on 1500 one-character lines: exactly the first 1000
lines survive, the truncation marker is appended, and the flag is set. -/
lemma rustLines_replicate_1500 :
    rustLines (joinNl (List.replicate 1500 ['x'])) = List.replicate 1500 ['x'] := by
  have hxne : (['x'] : List Char) ≠ [] := by decide
  refine rustLines_joinNl _ (by
    intro hEq
    have := congrArg List.length hEq
    rw [List.length_replicate] at this
    simp at this) ?_ ?_ ?_
  · intro l hl
    rw [List.eq_of_mem_replicate hl]
    decide
  · intro hEq
    have hm := mem_of_getLast?_eq _ _ hEq
    have := List.eq_of_mem_replicate hm
    exact absurd this.symm hxne
  · intro l hl
    rw [List.eq_of_mem_replicate hl]
    decide

lemma limit_output_1500_lines :
    limit_output (joinNl (List.replicate 1500 ['x']))
      = some (joinNl (List.replicate 1000 ['x']) ++ truncMarker, true) := by
  have hlines := rustLines_replicate_1500
  have hlim : limitedLines (joinNl (List.replicate 1500 ['x']))
      = List.replicate 1000 ['x'] := by
    simp only [limitedLines, hlines, List.length_replicate]
    rw [if_pos (by norm_num [MAX_OUTPUT_LINES])]
    rw [List.take_replicate,
      show min MAX_OUTPUT_LINES 1500 = 1000 from by norm_num [MAX_OUTPUT_LINES]]
  have hsplit : List.replicate 1000 (['x'] : List Char)
      = ['x'] :: List.replicate 999 ['x'] := by
    rw [← List.replicate_succ]
  have hjoin : joinNl (List.replicate 1000 ['x'])
      = ['x'] ++ glueTail (List.replicate 999 ['x']) := by
    rw [hsplit]; rfl
  have hjoin1000 : utf8Len (joinNl (List.replicate 1000 ['x'])) = 1999 := by
    have h0 := utf8Len_joinNl_single 'x' (by decide) 999
    rw [show (999 : Nat) + 1 = 1000 from rfl] at h0
    exact h0
  have hloop : limitLoop (List.replicate 1000 ['x']) 0 [] true
      = (joinNl (List.replicate 1000 ['x']), true) := by
    conv_lhs => rw [hsplit]
    rw [limitLoop_start ['x'] (List.replicate 999 ['x']) true
      (by rw [← hjoin, hjoin1000]; norm_num [MAX_OUTPUT_BYTES])]
    rw [hjoin]
  have htrunc : utf8Len truncMarker = 35 := by decide
  have htr : decide ((List.replicate 1500 (['x'] : List Char)).length
      > MAX_OUTPUT_LINES) = true := by
    simp only [List.length_replicate, MAX_OUTPUT_LINES]
    decide
  simp only [limit_output, hlines, hlim, htr, hloop, if_true]
  rw [if_neg (by rw [utf8Len_append, hjoin1000, htrunc]; norm_num [MAX_OUTPUT_BYTES])]

/-- `limit_output` on a single 33000-byte line: the byte budget cuts the
line to 32718 bytes and appends the size marker, with the flag set. -/
lemma limit_output_long_line :
    limit_output (List.replicate 33000 'a')
      = some (List.replicate 32718 'a' ++ sizeMarker, true) := by
  have hane : (List.replicate 33000 'a') ≠ [] := by
    intro hEq
    have := congrArg List.length hEq
    rw [List.length_replicate] at this
    simp at this
  have hnotin : ('\n') ∉ List.replicate 33000 'a' := by
    intro h
    exact absurd (List.eq_of_mem_replicate h) (by decide)
  have hlen33 : utf8Len (List.replicate 33000 'a') = 33000 := by
    rw [utf8Len_replicate]
    have : ('a').utf8Size = 1 := by decide
    omega
  have hlines : rustLines (List.replicate 33000 'a') = [List.replicate 33000 'a'] := by
    have hjoin : joinNl [List.replicate 33000 'a'] = List.replicate 33000 'a' := by
      show List.replicate 33000 'a' ++ glueTail [] = _
      rw [show glueTail [] = ([] : List Char) from rfl, List.append_nil]
    have := rustLines_joinNl [List.replicate 33000 'a'] (List.cons_ne_nil _ _)
      (by intro l hl; rw [List.mem_singleton.mp hl]; exact hnotin)
      (by
        intro hEq
        simp only [List.getLast?_singleton, Option.some.injEq] at hEq
        exact hane hEq)
      (by
        intro l hl h
        rw [List.mem_singleton.mp hl] at h
        exact absurd (List.eq_of_mem_replicate h) (by decide))
    rw [hjoin] at this
    exact this
  have hlim : limitedLines (List.replicate 33000 'a') = [List.replicate 33000 'a'] := by
    simp only [limitedLines, hlines, List.length_singleton]
    rw [if_neg (by norm_num [MAX_OUTPUT_LINES])]
    rfl
  have hloop : limitLoop [List.replicate 33000 'a'] 0 [] false
      = (List.replicate 33000 'a', true) := by
    simp only [limitLoop, gt_iff_lt, lt_irrefl, if_false, List.nil_append]
    rw [if_pos (by rw [hlen33]; norm_num [MAX_OUTPUT_BYTES])]
  have htrunc : utf8Len truncMarker = 35 := by decide
  have htr : decide (([List.replicate 33000 'a'] : List (List Char)).length
      > MAX_OUTPUT_LINES) = false := by
    simp only [List.length_singleton, MAX_OUTPUT_LINES]
    decide
  simp only [limit_output, hlines, hlim, htr, hloop, if_true]
  rw [if_pos (by rw [utf8Len_append, hlen33, htrunc]; norm_num [MAX_OUTPUT_BYTES])]
  rw [show MAX_OUTPUT_BYTES - 50 = 32718 from by norm_num [MAX_OUTPUT_BYTES]]
  rw [rustTruncate_replicate_one 'a' (by decide) 32718 33000 truncMarker (by norm_num)]
  rfl

/-- One 33001-byte line: `'a'` followed by 11000 three-byte `'€'`s. -/
def mbLongLine : List Char := 'a' :: List.replicate 11000 '€'

/-- On `mbLongLine` the final size truncation lands at byte offset 32718,
which falls inside a `'€'`: `String::truncate` panics, modelled as
`limit_output = none`. -/
lemma limit_output_multibyte_panic : limit_output mbLongLine = none := by
  have heuro : ('€').utf8Size = 3 := by decide
  have hnotin : ('\n') ∉ mbLongLine := by
    intro h
    rcases List.mem_cons.mp h with h' | h'
    · exact absurd h' (by decide)
    · exact absurd (List.eq_of_mem_replicate h') (by decide)
  have hlen : utf8Len mbLongLine = 33001 := by
    show utf8Len ('a' :: List.replicate 11000 '€') = 33001
    show ('a').utf8Size + utf8Len (List.replicate 11000 '€') = 33001
    rw [utf8Len_replicate, heuro]
    decide
  have hlines : rustLines mbLongLine = [mbLongLine] := by
    have hjoin : joinNl [mbLongLine] = mbLongLine := by
      show mbLongLine ++ glueTail [] = _
      rw [show glueTail [] = ([] : List Char) from rfl, List.append_nil]
    have := rustLines_joinNl [mbLongLine] (List.cons_ne_nil _ _)
      (by intro l hl; rw [List.mem_singleton.mp hl]; exact hnotin)
      (by
        intro hEq
        simp only [List.getLast?_singleton, Option.some.injEq] at hEq
        exact List.cons_ne_nil _ _ hEq)
      (by
        intro l hl h
        rw [List.mem_singleton.mp hl] at h
        rcases List.mem_cons.mp h with h' | h'
        · exact absurd h' (by decide)
        · exact absurd (List.eq_of_mem_replicate h') (by decide))
    rw [hjoin] at this
    exact this
  have hlim : limitedLines mbLongLine = [mbLongLine] := by
    simp only [limitedLines, hlines, List.length_singleton]
    rw [if_neg (by norm_num [MAX_OUTPUT_LINES])]
    rfl
  have hloop : limitLoop [mbLongLine] 0 [] false = (mbLongLine, true) := by
    simp only [limitLoop, gt_iff_lt, lt_irrefl, if_false, List.nil_append]
    rw [if_pos (by rw [hlen]; norm_num [MAX_OUTPUT_BYTES])]
  have htrunc : utf8Len truncMarker = 35 := by decide
  have htr : decide (([mbLongLine] : List (List Char)).length
      > MAX_OUTPUT_LINES) = false := by
    simp only [List.length_singleton, MAX_OUTPUT_LINES]
    decide
  simp only [limit_output, hlines, hlim, htr, hloop, if_true]
  rw [if_pos (by rw [utf8Len_append, hlen, htrunc]; norm_num [MAX_OUTPUT_BYTES])]
  rw [show MAX_OUTPUT_BYTES - 50 = 32718 from by norm_num [MAX_OUTPUT_BYTES]]
  rw [show (mbLongLine ++ truncMarker)
        = 'a' :: (List.replicate 11000 '€' ++ truncMarker) from rfl]
  unfold rustTruncate
  rw [if_pos (by decide)]
  rw [show (32718 : Nat) - ('a').utf8Size = 32717 from by decide]
  rw [rustTruncate_replicate_stuck '€' heuro 11000 32717 truncMarker
    (by norm_num) (by norm_num) (by norm_num)]
  rfl

/-- Counterexample to C7 as stated: on the reachable multibyte input
`mbLongLine` (one 33001-byte line), `limit_output` produces no capped
result at all — the source's `result.truncate(32718)` (command.rs line
120) panics because that byte offset falls inside a `'€'` — so the claim
that every captured byte stream is capped to at most 32 KiB fails. -/
theorem C7_counterexample : limit_output mbLongLine = none :=
  limit_output_multibyte_panic

/-- C7 (amended): whenever `limit_output` returns (the final size
truncation panics when byte offset 32718 falls inside a multibyte
character), its result is at most 32 KiB — the byte-budget truncation
runs after the line cap and the truncation marker, so even a single very
long line cannot bypass it — and at most 1000 captured lines; exceeding
1000 input lines sets the truncated flag of any returned result; an
input of 1500 one-character lines yields exactly the first 1000 lines
plus the truncation marker with the flag set; and a single 33000-byte
ASCII line is cut to the 32718-byte budget with the distinct size
marker. -/
theorem C7_limit_output_caps (s : List Char) :
    (∀ res : List Char × Bool, limit_output s = some res →
      utf8Len res.1 ≤ MAX_OUTPUT_BYTES) ∧
    (∀ b : Bool, ((limitLoop (limitedLines s) 0 [] b).1).count '\n' < MAX_OUTPUT_LINES) ∧
    ((rustLines s).length > MAX_OUTPUT_LINES →
      ∀ res : List Char × Bool, limit_output s = some res → res.2 = true) ∧
    limit_output (joinNl (List.replicate 1500 ['x']))
      = some (joinNl (List.replicate 1000 ['x']) ++ truncMarker, true) ∧
    limit_output (List.replicate 33000 'a')
      = some (List.replicate 32718 'a' ++ sizeMarker, true) :=
  ⟨limit_output_byte_cap s, limitLoop_line_cap s,
   limit_output_flag_of_many_lines s, limit_output_1500_lines, limit_output_long_line⟩

/-- Witness for the amended C7: the 1500-line input has more than 1000
lines and returns a value, so the byte-cap and flag implications apply to
it concretely. -/
theorem C7_limit_output_caps_witness :
    utf8Len (joinNl (List.replicate 1000 ['x']) ++ truncMarker) ≤ MAX_OUTPUT_BYTES ∧
    ((joinNl (List.replicate 1000 ['x']) ++ truncMarker, true) :
        List Char × Bool).2 = true :=
  have h := C7_limit_output_caps (joinNl (List.replicate 1500 ['x']))
  ⟨h.1 (joinNl (List.replicate 1000 ['x']) ++ truncMarker, true) h.2.2.2.1,
   h.2.2.1
     (by rw [rustLines_replicate_1500, List.length_replicate]
         norm_num [MAX_OUTPUT_LINES])
     (joinNl (List.replicate 1000 ['x']) ++ truncMarker, true) h.2.2.2.1⟩

end DeviceOps
